import Mathlib

/-!
Verification of the tlt-stops transit worker.

The development shallowly embeds the Rust sources (`str_utils.rs`,
`caches.rs`, `models.rs`, `services.rs`, `lib.rs`) into Lean:

* byte buffers become `List Char` (the feeds are ASCII text; `str::from_utf8`
  on already-decoded characters always succeeds, so the Utf8 error branches of
  the source are unreachable in the model and are noted where they occur);
* `HashMap` becomes an association list whose `insert` replaces the entry for
  an existing key and whose `remove` deletes it, matching lookup semantics;
* `HashSet` becomes a first-occurrence-deduplicated list;
* the ambient wall clock (`js_sys::Date::now`, `Utc::now`) becomes an explicit
  `now` / reference-date parameter;
* the `chrono-tz` resolution of a naive local time in Europe/Tallinn is
  modelled by `tallinn_from_local`, parameterised by the predicate `isDst`
  telling whether the zone is on summer time (UTC+3) at a given UTC instant;
  outside of DST the zone is at UTC+2;
* timestamps are modelled as the resolved UTC instant (an `Int` of epoch
  seconds); the source additionally formats that instant with `to_rfc3339`,
  an injective formatting that the claims do not inspect.
-/

/-- Lookup in an association list: first entry whose key matches, as
`HashMap::get`. -/
def alLookup {κ α : Type} [DecidableEq κ] (k : κ) : List (κ × α) → Option α
  | [] => none
  | (k', v) :: t => if k = k' then some v else alLookup k t

/-- Remove every entry with the given key, as `HashMap::remove` on a map whose
keys are unique. -/
def alErase {κ α : Type} [DecidableEq κ] (k : κ) (m : List (κ × α)) : List (κ × α) :=
  m.filter fun p => decide ¬ (p.1 = k)

/-- Insert (replacing any previous binding), as `HashMap::insert`. -/
def alInsert {κ α : Type} [DecidableEq κ] (k : κ) (v : α) (m : List (κ × α)) : List (κ × α) :=
  (k, v) :: alErase k m

/-- Insertion into a `HashSet` modelled as a deduplicated list. -/
def setInsert (s : List String) (x : String) : List String :=
  if x ∈ s then s else s ++ [x]

/-- Collecting a list into a `HashSet`, keeping first occurrences. -/
def dedupSet (l : List String) : List String :=
  l.foldl setInsert []

/-- Model of `str::trim` on the ASCII feed content: drop surrounding
whitespace characters. -/
def trim (l : List Char) : List Char :=
  ((l.dropWhile Char.isWhitespace).reverse.dropWhile Char.isWhitespace).reverse

/-- Conversion of a character buffer to a `String`. -/
def strOf (l : List Char) : String :=
  String.mk l

/-- Trim, then treat the empty result as absent: the
`.map(str::trim).map(str::to_string).filter(|s| !s.is_empty())` idiom of the
source. -/
def nonEmptyTrim (l : List Char) : Option String :=
  let t := trim l
  if t = [] then none else some (strOf t)

/-- Split a buffer at every occurrence of the delimiter `c`.  This is the
segment sequence enumerated by the source's
`memchr_iter(delim, line).chain(once(line.len()))` loops: with `k`
delimiters it yields `k + 1` segments. -/
def splitOnChar (c : Char) : List Char → List (List Char)
  | [] => [[]]
  | x :: t =>
    match splitOnChar c t with
    | [] => [[]]
    | h :: r => if x = c then [] :: h :: r else (x :: h) :: r

/-- Model of `col_at_memchr_bytes`: the substring at the requested zero-based
semicolon-delimited column, `none` when the line has fewer columns. -/
def col_at_memchr_bytes (line : List Char) (target : Nat) : Option (List Char) :=
  (splitOnChar ';' line).get? target

/-- Model of `splits_commas`: split a buffer at every comma, keeping empty
segments (including a trailing one). -/
def splits_commas (s : String) : List String :=
  (splitOnChar ',' s.toList).map strOf

/-- Joining fields with a delimiter, the inverse of `splitOnChar` on
delimiter-free fields; used to quantify over feed lines column-wise. -/
def joinChar (c : Char) : List (List Char) → List Char
  | [] => []
  | [f] => f
  | f :: g :: t => f ++ c :: joinChar c (g :: t)

/-- Model of `split_stops_field`: segments between commas, where the final
segment is pushed only when non-empty (`if start < stops_raw.len()`), so a
trailing empty segment is dropped. -/
def split_stops_field (s : List Char) : List String :=
  let segs := splitOnChar ',' s
  let segs := if segs.getLast? = some [] then segs.dropLast else segs
  segs.map strOf

/-- Carry-forward state of the route-feed parser (`LastRouteData`). -/
structure LastRouteData where
  last_type : Option String
  last_number : Option String
deriving Repr, DecidableEq

/-- Per-line output of the route parser (`RouteData`): `directions` is the
single direction name of the line, as in the source. -/
structure RouteData where
  number : String
  route_type : String
  directions : String
  stops : List String
deriving Repr, DecidableEq

/-- Route group stored in the derived route map (`RouteGroup`). -/
structure RouteGroup where
  number : String
  type : String
  directions : List (String × List String)
deriving Repr, DecidableEq

/-- Stop record (`StopData`); the `Rc<String>` name is modelled as the shared
string value. -/
structure StopData where
  id : String
  siri_id : String
  name : String
deriving Repr, DecidableEq

/-- Model of `extract_route_data_from_line`.  The column loop reads column 0
raw, resolves columns 0 and 3 against the carry-forward state when it reaches
column 3 (recording the resolved values, the type before the number, so the
type carry is updated even when the number fails to resolve), takes the
trimmed non-empty direction at column 10 and the comma-split stop list at
column 13, and finally builds the record, failing when any of number, type or
direction is absent.  The updated carry state is returned alongside, since the
source mutates `last_data` in place. -/
def extract_route_data_from_line (line : List Char) (last_data : LastRouteData) :
    Option RouteData × LastRouteData :=
  let cols := splitOnChar ';' line
  let raw_num := cols.get? 0
  match cols.get? 3 with
  | none => (none, last_data)
  | some raw_type =>
    match (nonEmptyTrim raw_type).orElse (fun _ => last_data.last_type) with
    | none => (none, last_data)
    | some ty =>
      let last1 : LastRouteData := { last_data with last_type := some ty }
      match ((raw_num.bind nonEmptyTrim).orElse fun _ => last_data.last_number) with
      | none => (none, last1)
      | some num =>
        let last2 : LastRouteData := { last1 with last_number := some num }
        let direction := (cols.get? 10).bind nonEmptyTrim
        let stops :=
          match cols.get? 13 with
          | some f => split_stops_field f
          | none => []
        match direction with
        | none => (none, last2)
        | some dir => (some ⟨num, ty, dir, stops⟩, last2)

/-- The nested route map `HashMap<type, HashMap<number, RouteGroup>>`. -/
abbrev RouteMap := List (String × List (String × RouteGroup))

/-- Insertion of one parsed line into the route map, as the
`entry(..).or_default() / entry(..).and_modify(..).or_insert(..)` body of
`extract_route_data_from_buffer`. -/
def insertRouteData (route_map : RouteMap) (rd : RouteData) : RouteMap :=
  let type_entry := (alLookup rd.route_type route_map).getD []
  let type_entry :=
    match alLookup rd.number type_entry with
    | some group =>
        alInsert rd.number
          { group with directions := alInsert rd.directions rd.stops group.directions }
          type_entry
    | none =>
        alInsert rd.number
          { number := rd.number, type := rd.route_type
            directions := [(rd.directions, rd.stops)] } type_entry
  alInsert rd.route_type type_entry route_map

/-- Per-line action of the route-feed buffer parser. -/
def routeLineStep : RouteMap × LastRouteData → List Char → RouteMap × LastRouteData
  | (m, last), line =>
    match extract_route_data_from_line line last with
    | (some rd, last') => (insertRouteData m rd, last')
    | (none, last') => (m, last')

/-- Model of `extract_stop_data_from_line`: reads columns 0 (id), 1 (siriId)
and 5 (name); the trimmed-empty name falls back to the carried previous name,
trimmed-empty id or siriId drop the line. -/
def extract_stop_data_from_line (line : List Char) (last_name : Option String) :
    Option StopData :=
  let cols := splitOnChar ';' line
  match ((cols.get? 5).bind nonEmptyTrim).orElse fun _ => last_name with
  | none => none
  | some name =>
    match (cols.get? 1).bind nonEmptyTrim with
    | none => none
    | some siri_id =>
      match (cols.get? 0).bind nonEmptyTrim with
      | none => none
      | some id => some ⟨id, siri_id, name⟩

/-- The stop index `HashMap<String, Rc<StopData>>`. -/
abbrev StopMap := List (String × StopData)

/-- Per-line action of the stop-feed buffer parser: a parsed record is
inserted under its id and then under its siriId, and its name becomes the new
carry-forward name. -/
def stopLineStep : StopMap × Option String → List Char → StopMap × Option String
  | (m, last_name), line =>
    match extract_stop_data_from_line line last_name with
    | some d => (alInsert d.siri_id d (alInsert d.id d m), some d.name)
    | none => (m, last_name)

/-- Per-line action of `extract_type_from_buffer`: the raw (untrimmed) column
3 is inserted into the type set whenever it is present and byte-non-empty. -/
def typeLineStep (type_set : List String) (line : List Char) : List String :=
  match col_at_memchr_bytes line 3 with
  | some tb => if tb = [] then type_set else setInsert type_set (strOf tb)
  | none => type_set

/-- Newline positions of the buffer at or past the search start: the absolute
positions enumerated by
`memchr_iter(b'\n', &buf[search_start..]).map(|pos| pos + search_start)`. -/
def nlPositions (buf : List Char) (start : Nat) : List Nat :=
  (List.range buf.length).filter fun p => decide (start ≤ p ∧ buf.get? p = some '\n')

/-- The slice `&buf[a..b]`. -/
def lineSlice (buf : List Char) (a b : Nat) : List Char :=
  (buf.take b).drop a

/-- Body of the newline loop shared by the three static-feed buffer parsers:
the first line of the whole stream (the feed header) is skipped, every later
line is handed to the per-line action, and the consumed offset advances past
the newline. -/
def handleNewline {σ : Type} (lineStep : σ → List Char → σ) (buf : List Char) :
    σ × Nat × Bool → Nat → σ × Nat × Bool
  | (acc, last_processed, first_line_skipped), pos =>
    if first_line_skipped then
      (lineStep acc (lineSlice buf last_processed pos), pos + 1, first_line_skipped)
    else
      (acc, pos + 1, true)

/-- Model of the `extract_*_data_from_buffer` functions, generic in the
per-line action: fold the newline loop over the newline positions at or past
the entry value of `last_processed`. -/
def processBuffer {σ : Type} (lineStep : σ → List Char → σ) (buf : List Char)
    (st : σ × Nat × Bool) : σ × Nat × Bool :=
  (nlPositions buf st.2.1).foldl (handleNewline lineStep buf) st

/-- Fold state of the `extract_*_data_from_buffer_fold` functions. -/
structure ChunkFoldState (σ : Type) where
  buf : List Char
  acc : σ
  last_processed : Nat
  first_line_skipped : Bool
deriving Repr

/-- Model of the `extract_*_data_from_buffer_fold` functions, generic in the
per-line action: append the chunk to the accumulated buffer and resume the
buffer scan. -/
def chunkFoldStep {σ : Type} (lineStep : σ → List Char → σ)
    (st : ChunkFoldState σ) (chunk : List Char) : ChunkFoldState σ :=
  let buf := st.buf ++ chunk
  let r := processBuffer lineStep buf (st.acc, st.last_processed, st.first_line_skipped)
  ⟨buf, r.1, r.2.1, r.2.2⟩

/-- Folding a chunk stream from the initial state used by `services.rs`
(empty buffer, empty derived structure, offset 0, header not yet skipped), as
`reader.try_fold((Vec::new(), .., 0usize, false), extract_*_fold)`. -/
def runChunks {σ : Type} (lineStep : σ → List Char → σ) (init : σ)
    (chunks : List (List Char)) : ChunkFoldState σ :=
  chunks.foldl (chunkFoldStep lineStep) ⟨[], init, 0, false⟩

/-- Model of `extract_route_data_from_buffer`. -/
def extract_route_data_from_buffer (buf : List Char) (route_map : RouteMap)
    (last_data : LastRouteData) (last_processed : Nat) (first_line_skipped : Bool) :
    (RouteMap × LastRouteData) × Nat × Bool :=
  processBuffer routeLineStep buf ((route_map, last_data), last_processed, first_line_skipped)

/-- Model of `extract_route_data_from_buffer_fold`. -/
def extract_route_data_from_buffer_fold (st : ChunkFoldState (RouteMap × LastRouteData))
    (chunk : List Char) : ChunkFoldState (RouteMap × LastRouteData) :=
  chunkFoldStep routeLineStep st chunk

/-- Model of `extract_stop_data_from_buffer`. -/
def extract_stop_data_from_buffer (buf : List Char) (stop_map : StopMap)
    (last_name : Option String) (last_processed : Nat) (first_line_skipped : Bool) :
    (StopMap × Option String) × Nat × Bool :=
  processBuffer stopLineStep buf ((stop_map, last_name), last_processed, first_line_skipped)

/-- Model of `extract_stop_data_from_buffer_fold`. -/
def extract_stop_data_from_buffer_fold (st : ChunkFoldState (StopMap × Option String))
    (chunk : List Char) : ChunkFoldState (StopMap × Option String) :=
  chunkFoldStep stopLineStep st chunk

/-- Model of `extract_type_from_buffer`. -/
def extract_type_from_buffer (buf : List Char) (type_set : List String)
    (last_processed : Nat) (first_line_skipped : Bool) : List String × Nat × Bool :=
  processBuffer typeLineStep buf (type_set, last_processed, first_line_skipped)

/-- Model of `extract_type_from_buffer_fold`. -/
def extract_type_from_buffer_fold (st : ChunkFoldState (List String))
    (chunk : List Char) : ChunkFoldState (List String) :=
  chunkFoldStep typeLineStep st chunk

/-! Local-time resolution (`chrono-tz` Europe/Tallinn). -/

/-- Result of resolving a naive local datetime, as `chrono::LocalResult`. -/
inductive TzLocalResult where
  | single (t : Int)
  | ambiguous (earliest latest : Int)
  | gap
deriving Repr, DecidableEq

/-- Resolution of a naive Europe/Tallinn local time (given as seconds on a
linear local timeline) to a UTC instant, modelling
`Tallinn.from_local_datetime`.  The zone has offset UTC+3 (EEST) at instants
where `isDst` holds and UTC+2 (EET) elsewhere; a candidate instant is valid
when the zone's offset at that instant maps the instant back to the given
local time.  Both candidates valid is the fall-back overlap (the EEST
interpretation is the earlier instant), neither valid is the spring-forward
gap. -/
def tallinn_from_local (isDst : Int → Bool) (localSecs : Int) : TzLocalResult :=
  let eestCandidate := localSecs - 10800
  let eetCandidate := localSecs - 7200
  if isDst eestCandidate then
    if isDst eetCandidate then .single eestCandidate
    else .ambiguous eestCandidate eetCandidate
  else
    if isDst eetCandidate then .gap
    else .single eetCandidate

/-- Model of `seconds_from_midnight_to_utc_iso`.  `today` is the current date
in the Tallinn zone (`Utc::now().with_timezone(&Tallinn).date_naive()`),
passed explicitly as a day number of the local calendar; the resolved UTC
instant is returned as epoch seconds of that local timeline (the source
formats it with `to_rfc3339`).  Inputs of 86400 and above have 86400
subtracted once and the date advanced by one day; a value still at or above
86400 after the subtraction makes `NaiveTime::from_num_seconds_from_midnight_opt`
fail. -/
def seconds_from_midnight_to_utc_iso (isDst : Int → Bool) (today : Nat)
    (seconds_from_midnight : Nat) : Except String Int :=
  let is_next_day := 86400 ≤ seconds_from_midnight
  let s := if is_next_day then seconds_from_midnight - 86400 else seconds_from_midnight
  if 86400 ≤ s then .error ("seconds_from_midnight must be in 0..=86399")
  else
    let date := if is_next_day then today + 1 else today
    let naive : Int := (date * 86400 + s : Nat)
    match tallinn_from_local isDst naive with
    | .single t => .ok t
    | .ambiguous earliest _latest => .ok earliest
    | .gap => .error ("Local time does not exist in Tallinn today (DST gap)")

/-! Arrival feed records and per-line parsing. -/

/-- Upstream-parsing error (`ParsingUpstreamError`); the `Http` payload is
irrelevant to the claims and carried as a bare constructor. -/
inductive ParsingUpstreamError where
  | http
  | utf8
  | error (msg : String)
deriving Repr, DecidableEq

/-- Arrival entry (`Arrival`): a UTC timestamp tagged regular or low-entry. -/
inductive Arrival where
  | RegularEntry (time : Int)
  | LowEntry (time : Int)
deriving Repr, DecidableEq

/-- Serialization of an `Arrival` as the ordered key/value entries emitted by
its `Serialize` impl. -/
def serializeArrival : Arrival → List (String × String)
  | .RegularEntry time => [("time", toString time)]
  | .LowEntry time => [("time", toString time), ("isLowEntry", "true")]

/-- Per-line output of the arrival parser (`StopArrival`). -/
structure StopArrival where
  number : String
  type : String
  arrivals : Arrival
deriving Repr, DecidableEq

/-- Model of `u32::from_str`: an optional leading plus sign, then at least one
decimal digit, with the value below 2^32. -/
def parseU32 (l : List Char) : Option Nat :=
  let ds := match l with
    | '+' :: t => t
    | t => t
  if ds = [] then none
  else if ds.all Char.isDigit then
    let n := ds.foldl (fun a c => a * 10 + (c.toNat - 48)) 0
    if n < 4294967296 then some n else none
  else none

/-- Model of `extract_arrival_data`.  The comma loop keeps the raw column 0
(route type) and column 1 (route number), converts the column 2 value through
`seconds_from_midnight_to_utc_iso` (both a failed integer parse and a failed
conversion become the `Utf8` error, as in the source's `map_err`), and at
column 6 classifies the entry — `LowEntry` exactly for the code `Z` —
requiring the converted time to be present; the loop exits there.  The record
build then demands number, type and a classified arrival, in that order. -/
def extract_arrival_data (isDst : Int → Bool) (today : Nat) (arrival_line : List Char) :
    Except ParsingUpstreamError StopArrival :=
  let cols := splitOnChar ',' arrival_line
  let route_type := cols.get? 0
  let route_number := cols.get? 1
  let timeStep : Except ParsingUpstreamError (Option Int) :=
    match cols.get? 2 with
    | none => .ok none
    | some c =>
      match parseU32 c with
      | none => .error .utf8
      | some n =>
        match seconds_from_midnight_to_utc_iso isDst today n with
        | .error _ => .error .utf8
        | .ok t => .ok (some t)
  match timeStep with
  | .error e => .error e
  | .ok expected_time =>
    let arrivalStep : Except ParsingUpstreamError (Option Arrival) :=
      match cols.get? 6 with
      | none => .ok none
      | some c =>
        match expected_time with
        | none => .error (.error ("incorrect arrival time"))
        | some t => .ok (some (if c = ['Z'] then .LowEntry t else .RegularEntry t))
    match arrivalStep with
    | .error e => .error e
    | .ok arrival_type =>
      match route_number with
      | none => .error (.error ("invalid arrival data1"))
      | some num =>
        match route_type with
        | none => .error (.error ("invalid arrival data2"))
        | some ty =>
          match arrival_type with
          | none => .error (.error ("invalid arrival data3"))
          | some arr => .ok ⟨strOf num, strOf ty, arr⟩

/-- Nested per-stop arrival index (`StopArrivals`): transport type → route
number → arrivals in feed order. -/
structure StopArrivals where
  id : String
  name : String
  arrivals : List (String × List (String × List Arrival))
deriving Repr, DecidableEq

/-! Time-keyed caches (`caches.rs`).  Wall-clock seconds are `u32` in the
source (`now_secs`), so the expiry addition saturates at `u32::MAX`. -/

/-- Saturating `u32` addition. -/
def satAdd32 (a b : Nat) : Nat :=
  min (a + b) 4294967295

/-- Cache record (`CacheRecord`): payload plus expiry instant. -/
structure CacheRecord (α : Type) where
  data : α
  expires_at : Nat
deriving Repr, DecidableEq

/-- Single-slot cache (`CacheData`). -/
structure CacheData (α : Type) where
  record : Option (CacheRecord α)
  ttl_secs : Nat
deriving Repr, DecidableEq

/-- Model of `CacheData::set`: unconditionally store with expiry
`now + ttl` (saturating).  The reentrant-borrow failure path cannot occur in
the straight-line model. -/
def CacheData.set {α : Type} (c : CacheData α) (now : Nat) (data : α) : CacheData α :=
  { c with record := some ⟨data, satAdd32 now c.ttl_secs⟩ }

/-- Model of `CacheData::get`: a missing slot is a miss; a record strictly
past its expiry is reported as a miss, but the slot is NOT cleared — the
source's `rec.take()` never runs, because the `Ref` guard from the initial
`try_borrow` is shadowed, not released, so the `try_borrow_mut` in the expiry
branch always fails and the eviction degrades to a silent no-op.  Otherwise
the value is returned.  The cache is passed back alongside to expose the
post-`get` state; it is never actually modified. -/
def CacheData.get {α : Type} (c : CacheData α) (now : Nat) : Option α × CacheData α :=
  match c.record with
  | none => (none, c)
  | some r =>
    if r.expires_at < now then (none, c)
    else (some r.data, c)

/-- Keyed cache (`CacheDataWithKeys`). -/
structure CacheDataWithKeys (κ α : Type) where
  record : List (κ × CacheRecord α)
  ttl_secs : Nat
deriving Repr, DecidableEq

/-- Model of `CacheDataWithKeys::set`. -/
def CacheDataWithKeys.set {κ α : Type} [DecidableEq κ] (c : CacheDataWithKeys κ α)
    (now : Nat) (key : κ) (data : α) : CacheDataWithKeys κ α :=
  { c with record := alInsert key ⟨data, satAdd32 now c.ttl_secs⟩ c.record }

/-- Model of `CacheDataWithKeys::get`: an absent key is a miss; an entry
strictly past its expiry is reported as a miss, but the entry is NOT removed —
the source's `rec.remove(key)` never runs, because the `Ref` guard from the
initial `try_borrow` is shadowed, not released, so the `try_borrow_mut` in the
expiry branch always fails and the eviction degrades to a silent no-op.
Otherwise the value is returned.  The cache is passed back alongside to expose
the post-`get` state; it is never actually modified. -/
def CacheDataWithKeys.get {κ α : Type} [DecidableEq κ] (c : CacheDataWithKeys κ α)
    (now : Nat) (key : κ) : Option α × CacheDataWithKeys κ α :=
  match alLookup key c.record with
  | none => (none, c)
  | some r =>
    if r.expires_at < now then (none, c)
    else (some r.data, c)

/-- The per-stop arrivals cache (`Caches.stop_arrival`). -/
abbrev ArrivalsCache := CacheDataWithKeys String StopArrivals

/-! Arrival resolution engine (`models.rs` state machine and
`lib.rs::get_stop_arrivals`). -/

/-- Per-identifier resolution state (`StopArrivalState`). -/
inductive StopArrivalState where
  | stopId (id : String)
  | invalid
  | valid (data : StopData)
  | ready (arrivals : StopArrivals)
deriving Repr, DecidableEq

/-- Model of `StopId::validate`: a stop-index hit carries the record forward,
a miss is terminal `invalid`. -/
def validateStop (stop_map : StopMap) (id : String) : StopArrivalState :=
  match alLookup id stop_map with
  | some data => .valid data
  | none => .invalid

/-- Model of `ValidStop::fetch_arrivals_from_cache`: a cache hit is terminal
`ready`, a miss stays `valid`.  The cache comes back with the state, mirroring
the `get` interface. -/
def fetch_arrivals_from_cache (data : StopData) (arrivals_cache : ArrivalsCache)
    (now : Nat) : StopArrivalState × ArrivalsCache :=
  match arrivals_cache.get now data.siri_id with
  | (some arrivals, c) => (.ready arrivals, c)
  | (none, c) => (.valid data, c)

/-- The siriId contributed by a still-`valid` state to the batch set
(the `filter_map` closure in `get_stop_arrivals`). -/
def validSiriId : StopArrivalState → Option String
  | .valid data => some data.siri_id
  | _ => none

/-- One cache pass over the state list (`.map` over `stop_states` in
`get_stop_arrivals`): only `valid` states consult the cache, every other
state passes through; the cache is threaded left to right. -/
def cachePass (states : List StopArrivalState) (cache : ArrivalsCache) (now : Nat) :
    List StopArrivalState × ArrivalsCache :=
  match states with
  | [] => ([], cache)
  | s :: t =>
    match s with
    | .valid data =>
      let r := fetch_arrivals_from_cache data cache now
      let rest := cachePass t r.2 now
      (r.1 :: rest.1, rest.2)
    | other =>
      let rest := cachePass t cache now
      (other :: rest.1, rest.2)

/-- Comma-joining of the deduplicated siriId set, as the
`fold(String::new(), ..)` in `get_stop_arrivals`: a separator is pushed only
when the accumulator is non-empty. -/
def commaJoin (ids : List String) : String :=
  ids.foldl (fun acc id => (if acc = ("") then acc else acc ++ (",")) ++ id) ("")

/-- Model of `update_stops_arrival_cache`: an empty batch key returns at once
with no upstream call; otherwise exactly one upstream fetch happens and the
response is parsed block by block into the cache.  The fetch-and-parse effect
(`get_stops_arrivals`, `split_arrival_by_stops`,
`extract_arrival_stop_data_from_line` and the per-block `set` loop) consumes
the external response text and is abstracted as the `applyBlocks` parameter;
the returned number counts the upstream arrival fetches issued. -/
def update_stops_arrival_cache
    (applyBlocks : ArrivalsCache → String → Except ParsingUpstreamError ArrivalsCache)
    (stop_siri_ids : String) (cache : ArrivalsCache) :
    Except ParsingUpstreamError ArrivalsCache × Nat :=
  if stop_siri_ids = ("") then (.ok cache, 0)
  else (applyBlocks cache stop_siri_ids, 1)

/-- Finalisation of the state list (the last `.map(..).collect::<Result<..>>`
of `get_stop_arrivals`): `ready` contributes its arrivals, `invalid`
contributes `none`, and any residual state aborts the whole request with an
error. -/
def finalizeStates : List StopArrivalState →
    Except ParsingUpstreamError (List (Option StopArrivals))
  | [] => .ok []
  | s :: t =>
    match s with
    | .ready arrivals => (finalizeStates t).map (some arrivals :: ·)
    | .invalid => (finalizeStates t).map (none :: ·)
    | _ => .error (.error ("unexpected state when fetching arrivals from cache"))

/-- Outcome of one arrivals request: the response (or error), the final
arrivals cache, the number of upstream arrival fetches issued, and the
deduplicated siriIds of the stops still `valid` after the first cache pass
(the set the source comma-joins into the single batch key; `HashSet`
iteration order is unspecified, so the model keeps the first-occurrence
order). -/
structure ArrivalsOutcome where
  response : Except ParsingUpstreamError (List (Option StopArrivals))
  cache : ArrivalsCache
  fetchCount : Nat
  batched : List String
deriving Repr

/-- Model of `get_stop_arrivals`: reject an empty or out-of-range (not 1 to 5)
stops parameter, validate each identifier against the stop index, run the
first cache pass, collect the deduplicated siriIds of the stops still
`valid`, refresh through `update_stops_arrival_cache` when the joined batch
key is non-empty (re-running the cache pass afterwards), and finalize.  The
stop index and the wall clock are the explicit parameters the source reads
from `get_stop_map` and ambient time. -/
def get_stop_arrivals (stops_param : String) (stop_map : StopMap)
    (cache : ArrivalsCache) (now : Nat)
    (applyBlocks : ArrivalsCache → String → Except ParsingUpstreamError ArrivalsCache) :
    ArrivalsOutcome :=
  if stops_param = ("") then
    ⟨.error (.error ("missing stops query parameter")), cache, 0, []⟩
  else
    let stops_request := splits_commas stops_param
    if ¬ (1 ≤ stops_request.length ∧ stops_request.length ≤ 5) then
      ⟨.error (.error ("invalid number of stops provided (1-5)")), cache, 0, []⟩
    else
      let states0 := stops_request.map (validateStop stop_map)
      let pass1 := cachePass states0 cache now
      let missing := dedupSet (pass1.1.filterMap validSiriId)
      let key := commaJoin missing
      if key = ("") then ⟨finalizeStates pass1.1, pass1.2, 0, missing⟩
      else
        match update_stops_arrival_cache applyBlocks key pass1.2 with
        | (.error e, n) => ⟨.error e, pass1.2, n, missing⟩
        | (.ok cache2, n) =>
          let pass2 := cachePass pass1.1 cache2 now
          ⟨finalizeStates pass2.1, pass2.2, n, missing⟩

/-- Terminal states of the resolution machine. -/
def isTerminalState : StopArrivalState → Bool
  | .ready _ => true
  | .invalid => true
  | _ => false

/-- Response entry contributed by a terminal state. -/
def finalEntry : StopArrivalState → Option StopArrivals
  | .ready arrivals => some arrivals
  | _ => none

/-- Freshness of a keyed-cache entry at a given time: present and not past
its expiry. -/
def cacheFresh (c : ArrivalsCache) (now : Nat) (k : String) : Prop :=
  ∃ r, alLookup k c.record = some r ∧ now ≤ r.expires_at

/-! Association-list lemmas. -/

theorem alLookup_alErase_self {κ α : Type} [DecidableEq κ] (k : κ) (m : List (κ × α)) :
    alLookup k (alErase k m) = none := by
  induction m with
  | nil => rfl
  | cons p t ih =>
    by_cases h : p.1 = k
    · simpa [alErase, h] using ih
    · simpa [alErase, alLookup, h, Ne.symm h] using ih

theorem alLookup_alErase_ne {κ α : Type} [DecidableEq κ] (k k' : κ) (m : List (κ × α))
    (h : k' ≠ k) : alLookup k' (alErase k m) = alLookup k' m := by
  induction m with
  | nil => rfl
  | cons p t ih =>
    by_cases hp : p.1 = k
    · rw [show alErase k (p :: t) = alErase k t by simp [alErase, hp]]
      rw [ih, alLookup]
      rw [if_neg (by rw [hp]; exact h)]
    · rw [show alErase k (p :: t) = p :: alErase k t by simp [alErase, hp]]
      by_cases hk : k' = p.1
      · simp [alLookup, hk]
      · simp only [alLookup, if_neg hk, ih]

theorem alLookup_alInsert_self {κ α : Type} [DecidableEq κ] (k : κ) (v : α)
    (m : List (κ × α)) : alLookup k (alInsert k v m) = some v := by
  simp [alInsert, alLookup]

theorem alLookup_alInsert_ne {κ α : Type} [DecidableEq κ] (k k' : κ) (v : α)
    (m : List (κ × α)) (h : k' ≠ k) : alLookup k' (alInsert k v m) = alLookup k' m := by
  simp only [alInsert, alLookup, if_neg h]
  exact alLookup_alErase_ne k k' m h

/-- C10 counterexample: the caches never evict.  With TTL 10, a value set at
time 0 and read at time 11 is a miss, yet the single-slot cache still holds
the record (the slot is not cleared) and the keyed cache still holds the
key's entry (it is not removed) — the eviction attempted by the source always
fails silently, because the read guard taken at the start of `get` is still
held when the mutable borrow is attempted. -/
theorem cache_eviction_counterexample :
    (((⟨none, 10⟩ : CacheData Nat).set 0 7).get 11).1 = none
    ∧ (((⟨none, 10⟩ : CacheData Nat).set 0 7).get 11).2.record = some ⟨7, 10⟩
    ∧ ((((⟨[], 10⟩ : CacheDataWithKeys String Nat).set 0 ("a") 7).get 11 ("a")).1 = none)
    ∧ alLookup ("a")
        ((((⟨[], 10⟩ : CacheDataWithKeys String Nat).set 0 ("a") 7).get 11 ("a")).2.record)
      = some ⟨7, 10⟩ := by
  refine ⟨rfl, rfl, rfl, rfl⟩

/-- C10 (amended): for both the single-slot and the keyed cache, a value
stored by `set` at time `T` with the configured TTL is returned by `get` at
every time up to and including `T + ttl`, and `get` strictly after `T + ttl`
returns a miss but leaves the record in place — the eviction attempt of the
source fails silently (the read borrow taken at the start of `get` is still
held when the mutable borrow is attempted), so the slot is not cleared and
the key's entry is not removed; the expiry comparison is strict greater-than,
so a record is still valid exactly at its expiry instant.  The hypotheses
keep the `u32` expiry addition below its saturation point. -/
theorem cache_ttl_strict_expiry {α : Type} (c : CacheData α)
    (ck : CacheDataWithKeys String α) (T τ : Nat) (v : α) (k : String)
    (hsat : T + c.ttl_secs ≤ 4294967295) (hsatk : T + ck.ttl_secs ≤ 4294967295) :
    ((τ ≤ T + c.ttl_secs → (c.set T v).get τ = (some v, c.set T v))
      ∧ (T + c.ttl_secs < τ →
          (c.set T v).get τ = (none, c.set T v)
          ∧ ((c.set T v).get τ).2.record = some ⟨v, T + c.ttl_secs⟩))
    ∧ ((τ ≤ T + ck.ttl_secs → (ck.set T k v).get τ k = (some v, ck.set T k v))
      ∧ (T + ck.ttl_secs < τ →
          (ck.set T k v).get τ k = (none, ck.set T k v)
          ∧ alLookup k (((ck.set T k v).get τ k).2.record)
              = some ⟨v, T + ck.ttl_secs⟩)) := by
  have hs : satAdd32 T c.ttl_secs = T + c.ttl_secs := by
    simp [satAdd32, Nat.min_eq_left hsat]
  have hsk : satAdd32 T ck.ttl_secs = T + ck.ttl_secs := by
    simp [satAdd32, Nat.min_eq_left hsatk]
  refine ⟨⟨?_, ?_⟩, ⟨?_, ?_⟩⟩
  · intro h
    simp [CacheData.set, CacheData.get, hs, Nat.not_lt.mpr h]
  · intro h
    constructor
    · simp [CacheData.set, CacheData.get, hs, h]
    · simp [CacheData.set, CacheData.get, hs, h]
  · intro h
    simp [CacheDataWithKeys.set, CacheDataWithKeys.get, alLookup_alInsert_self, hsk,
      Nat.not_lt.mpr h]
  · intro h
    constructor
    · simp [CacheDataWithKeys.set, CacheDataWithKeys.get, alLookup_alInsert_self, hsk, h]
    · simp [CacheDataWithKeys.set, CacheDataWithKeys.get, alLookup_alInsert_self, hsk, h]

/-- Witness for the amended cache-expiry theorem at TTL 10, set at time 0,
read at times 10 (hit) and 11 (miss with the record left in place). -/
theorem cache_ttl_strict_expiry_witness :
    ((⟨none, 10⟩ : CacheData Nat).set 0 7).get 10
        = (some 7, (⟨none, 10⟩ : CacheData Nat).set 0 7)
    ∧ ((⟨none, 10⟩ : CacheData Nat).set 0 7).get 11
        = (none, (⟨none, 10⟩ : CacheData Nat).set 0 7)
    ∧ ((⟨[], 10⟩ : CacheDataWithKeys String Nat).set 0 ("a") 7).get 10 ("a")
        = (some 7, (⟨[], 10⟩ : CacheDataWithKeys String Nat).set 0 ("a") 7)
    ∧ ((⟨[], 10⟩ : CacheDataWithKeys String Nat).set 0 ("a") 7).get 11 ("a")
        = (none, (⟨[], 10⟩ : CacheDataWithKeys String Nat).set 0 ("a") 7) := by
  have h := cache_ttl_strict_expiry (⟨none, 10⟩ : CacheData Nat)
    (⟨[], 10⟩ : CacheDataWithKeys String Nat) 0 10 7 ("a") (by decide) (by decide)
  have h' := cache_ttl_strict_expiry (⟨none, 10⟩ : CacheData Nat)
    (⟨[], 10⟩ : CacheDataWithKeys String Nat) 0 11 7 ("a") (by decide) (by decide)
  exact ⟨h.1.1 (by decide), (h'.1.2 (by decide)).1, h.2.1 (by decide), (h'.2.2 (by decide)).1⟩

/-- C4: finalisation maps every `ready` identifier to its resolved arrivals
and every `invalid` identifier to a null entry, position by position, and as
soon as any identifier is still in a non-terminal state the whole request
becomes an error instead of being dropped or defaulted. -/
theorem finalize_terminal_or_error (states : List StopArrivalState) :
    finalizeStates states =
      if states.all isTerminalState then .ok (states.map finalEntry)
      else .error (.error ("unexpected state when fetching arrivals from cache")) := by
  induction states with
  | nil => rfl
  | cons s t ih =>
    cases s with
    | stopId id => simp [finalizeStates, isTerminalState]
    | invalid =>
      by_cases h : t.all isTerminalState
      · simp [finalizeStates, isTerminalState, finalEntry, h, ih, Except.map]
      · simp [finalizeStates, isTerminalState, finalEntry, h, ih, Except.map]
    | valid d => simp [finalizeStates, isTerminalState]
    | ready a =>
      by_cases h : t.all isTerminalState
      · simp [finalizeStates, isTerminalState, finalEntry, h, ih, Except.map]
      · simp [finalizeStates, isTerminalState, finalEntry, h, ih, Except.map]

/-- C5 counterexample: at input 172800 the conversion does not reduce modulo
86400 — it subtracts 86400 once, leaving 86400, and fails — whereas the
claimed reduce-modulo-and-advance-one-day behaviour would resolve
successfully (shown on the right-hand conjunct with the same zone). -/
theorem next_day_modulo_counterexample :
    seconds_from_midnight_to_utc_iso (fun _ => false) 0 172800
        = .error ("seconds_from_midnight must be in 0..=86399")
    ∧ seconds_from_midnight_to_utc_iso (fun _ => false) (0 + 1) (172800 % 86400)
        = .ok 79200 := by
  constructor <;> rfl

/-- C5 (amended): for seconds-since-midnight inputs in [86400, 172800) the
conversion subtracts 86400 — which on that range coincides with reduction
modulo 86400 — and advances the reference date by one day before resolving;
in particular 90000 resolves as 01:00 local time on the day after the
reference date.  Inputs of 172800 and above are rejected with an error
instead. -/
theorem next_day_wraparound (isDst : Int → Bool) (today s : Nat)
    (h1 : 86400 ≤ s) (h2 : s < 172800) :
    seconds_from_midnight_to_utc_iso isDst today s
        = seconds_from_midnight_to_utc_iso isDst (today + 1) (s - 86400)
      ∧ s - 86400 = s % 86400
      ∧ seconds_from_midnight_to_utc_iso isDst today 90000
          = seconds_from_midnight_to_utc_iso isDst (today + 1) 3600 := by
  have hlt : s - 86400 < 86400 := by omega
  refine ⟨?_, by omega, ?_⟩
  · simp [seconds_from_midnight_to_utc_iso, h1, Nat.not_le.mpr hlt]
  · simp [seconds_from_midnight_to_utc_iso]

/-- Witness for the amended next-day wraparound at input 90000. -/
theorem next_day_wraparound_witness :
    seconds_from_midnight_to_utc_iso (fun _ => false) 0 90000
        = seconds_from_midnight_to_utc_iso (fun _ => false) 1 3600
      ∧ 90000 - 86400 = 90000 % 86400 := by
  have h := next_day_wraparound (fun _ => false) 0 90000 (by decide) (by decide)
  exact ⟨h.1, h.2.1⟩

/-- C6: resolving a local wall-clock time in the modelled Tallinn zone picks
the earlier of the two candidate UTC instants when the local time is
ambiguous (both the EEST and the EET interpretation are consistent, the
fall-back overlap), and returns a hard error when the local time does not
exist (neither interpretation is consistent, the spring-forward gap). -/
theorem dst_disambiguation (isDst : Int → Bool) (today s : Nat) (hs : s < 86400) :
    (isDst (((today * 86400 + s : Nat) : Int) - 10800) = true →
      isDst (((today * 86400 + s : Nat) : Int) - 7200) = false →
        seconds_from_midnight_to_utc_iso isDst today s
            = .ok (((today * 86400 + s : Nat) : Int) - 10800)
          ∧ ((today * 86400 + s : Nat) : Int) - 10800
              < ((today * 86400 + s : Nat) : Int) - 7200)
    ∧ (isDst (((today * 86400 + s : Nat) : Int) - 10800) = false →
        isDst (((today * 86400 + s : Nat) : Int) - 7200) = true →
          seconds_from_midnight_to_utc_iso isDst today s
            = .error ("Local time does not exist in Tallinn today (DST gap)")) := by
  constructor
  · intro hA hB
    push_cast at hA hB
    constructor
    · simp [seconds_from_midnight_to_utc_iso, tallinn_from_local, Nat.not_le.mpr hs, hA, hB]
    · omega
  · intro hA hB
    push_cast at hA hB
    simp [seconds_from_midnight_to_utc_iso, tallinn_from_local, Nat.not_le.mpr hs, hA, hB]

/-- Witness for the DST disambiguation: a zone whose fall-back instant is
01:00 UTC makes local 03:00 ambiguous and resolved to the earlier instant
00:00 UTC; a zone whose spring-forward instant is 01:00 UTC makes local 03:00
non-existent and an error. -/
theorem dst_disambiguation_witness :
    seconds_from_midnight_to_utc_iso (fun t => decide (t < 3600)) 0 10800 = .ok 0
    ∧ seconds_from_midnight_to_utc_iso (fun t => decide (3600 ≤ t)) 0 10800
        = .error ("Local time does not exist in Tallinn today (DST gap)") := by
  have h1 := (dst_disambiguation (fun t => decide (t < 3600)) 0 10800 (by decide)).1
    (by decide) (by decide)
  have h2 := (dst_disambiguation (fun t => decide (3600 ≤ t)) 0 10800 (by decide)).2
    (by decide) (by decide)
  exact ⟨by simpa using h1.1, by simpa using h2⟩

/-- C2 counterexample: the claimed example line has eleven leading
semicolons, which places the direction name in column 11 while the parser
reads the direction from column 10; after the first example line the claimed
line therefore yields no record at all (even though the carry-forward state
is available), and the route map built from the two lines has no Linnahall
direction. -/
theorem route_carry_forward_counterexample :
    extract_route_data_from_line ((";;;;;;;;;;;Linnahall;;;2001,2002").toList)
        ⟨some ("bus"), some ("12")⟩
      = (none, ⟨some ("bus"), some ("12")⟩)
    ∧ (alLookup ("bus")
        (runChunks routeLineStep ([], ⟨none, none⟩)
          [("hdr\n12;;;bus;;;;;;;Kopli;;;1001,1002,1003\n;;;;;;;;;;;Linnahall;;;2001,2002\n").toList]).acc.1).bind
        (fun routes => (alLookup ("12") routes).bind
          (fun group => alLookup ("Linnahall") group.directions))
      = none := by
  constructor
  · rfl
  · decide

/-- C2 (amended): with the direction actually in column 10 — the line
`;;;;;;;;;;Linnahall;;;2001,2002`, ten leading semicolons — a route line
whose route-number (column 0) and route-type (column 3) fields are empty
after trimming substitutes the carried-forward values, records them as the
new carry state, and is attributed to the carried route; parsed after the
`12;;;bus;...;Kopli;...` line it lands in the route map under type `bus`,
number `12`, direction `Linnahall` with stops 2001, 2002.  When no prior
value exists the line yields no record, contributes nothing to the map, and
parsing of subsequent lines continues. -/
theorem route_carry_forward (lt ln : String) :
    extract_route_data_from_line ((";;;;;;;;;;Linnahall;;;2001,2002").toList)
        ⟨some lt, some ln⟩
      = (some ⟨ln, lt, ("Linnahall"), [("2001"), ("2002")]⟩, ⟨some lt, some ln⟩)
    ∧ (alLookup ("bus")
        (runChunks routeLineStep ([], ⟨none, none⟩)
          [("hdr\n12;;;bus;;;;;;;Kopli;;;1001,1002,1003\n;;;;;;;;;;Linnahall;;;2001,2002\n").toList]).acc.1).bind
        (fun routes => (alLookup ("12") routes).bind
          (fun group => alLookup ("Linnahall") group.directions))
      = some [("2001"), ("2002")]
    ∧ (alLookup ("bus")
        (runChunks routeLineStep ([], ⟨none, none⟩)
          [("hdr\n12;;;bus;;;;;;;Kopli;;;1001,1002,1003\n;;;;;;;;;;Linnahall;;;2001,2002\n").toList]).acc.1).bind
        (fun routes => (alLookup ("12") routes).bind
          (fun group => alLookup ("Kopli") group.directions))
      = some [("1001"), ("1002"), ("1003")]
    ∧ (runChunks routeLineStep ([], ⟨none, none⟩)
        [("hdr\n12;;;bus;;;;;;;Kopli;;;1001,1002,1003\n;;;;;;;;;;Linnahall;;;2001,2002\n").toList]).acc.2
      = ⟨some ("bus"), some ("12")⟩
    ∧ extract_route_data_from_line ((";;;;;;;;;;Linnahall;;;2001,2002").toList) ⟨none, none⟩
      = (none, ⟨none, none⟩)
    ∧ (runChunks routeLineStep ([], ⟨none, none⟩)
        [("hdr\n;;;;;;;;;;Linnahall;;;2001,2002\n12;;;bus;;;;;;;Kopli;;;1001,1002,1003\n").toList]).acc.1
      = [(("bus"), [(("12"),
          ⟨("12"), ("bus"), [(("Kopli"), [("1001"), ("1002"), ("1003")])]⟩)])] := by
  refine ⟨rfl, by decide, by decide, by decide, rfl, by decide⟩

/-- C8 counterexample: when a later stop line reuses an earlier stop's siriId
as its own id, the overwrite breaks the double-keying invariant — stop A (id
`A`, siriId `B`, name `N1`) is reachable by id with name `N1`, but looking up
its siriId `B` now returns the later record with name `N2`, so the two keys
no longer return an identical name. -/
theorem stop_double_key_counterexample :
    (let m := (runChunks stopLineStep ([], none)
        [("hdr\nA;B;;;;N1\nB;C;;;;N2\n").toList]).acc.1
     (alLookup ("A") m).map StopData.name = some ("N1")
     ∧ (alLookup ("A") m).map StopData.siri_id = some ("B")
     ∧ (alLookup ("B") m).map StopData.name = some ("N2")) := by
  decide

/-- C8 (amended): every successfully parsed stop line is inserted into the
index under both its id and its siriId, mapping to the same record — so
immediately after the line both lookups succeed with that record, and in an
index where no later line reuses either key (as in the single-line example
`1001;5001;;;;Stop Name`) lookup by either key returns a record with the same
name.  A later line that reuses one of the keys may overwrite that one entry. -/
theorem stop_double_keying (m : StopMap) (last_name : Option String)
    (line : List Char) (d : StopData)
    (h : extract_stop_data_from_line line last_name = some d) :
    stopLineStep (m, last_name) line = (alInsert d.siri_id d (alInsert d.id d m), some d.name)
    ∧ alLookup d.id (alInsert d.siri_id d (alInsert d.id d m)) = some d
    ∧ alLookup d.siri_id (alInsert d.siri_id d (alInsert d.id d m)) = some d
    ∧ (let ex := (runChunks stopLineStep ([], none)
          [("hdr\n1001;5001;;;;Stop Name\n").toList]).acc.1
       (alLookup ("1001") ex).map StopData.name = some ("Stop Name")
       ∧ (alLookup ("5001") ex).map StopData.name = some ("Stop Name")
       ∧ alLookup ("1001") ex = alLookup ("5001") ex) := by
  refine ⟨by simp [stopLineStep, h], ?_, alLookup_alInsert_self _ _ _, by decide⟩
  by_cases hk : d.id = d.siri_id
  · rw [hk, alLookup_alInsert_self]
  · rw [alLookup_alInsert_ne _ _ _ _ hk, alLookup_alInsert_self]

/-- Witness for the stop double-keying theorem on a concrete line. -/
theorem stop_double_keying_witness :
    stopLineStep ([], none) (("X;Y;;;;Nm").toList)
      = (alInsert ("Y") (⟨("X"), ("Y"), ("Nm")⟩ : StopData)
          (alInsert ("X") (⟨("X"), ("Y"), ("Nm")⟩ : StopData) []), some ("Nm"))
    ∧ alLookup ("X") (alInsert ("Y") (⟨("X"), ("Y"), ("Nm")⟩ : StopData)
          (alInsert ("X") (⟨("X"), ("Y"), ("Nm")⟩ : StopData) []))
        = some (⟨("X"), ("Y"), ("Nm")⟩ : StopData) := by
  have h := stop_double_keying [] none (("X;Y;;;;Nm").toList)
    (⟨("X"), ("Y"), ("Nm")⟩ : StopData) (by decide)
  exact ⟨h.1, h.2.1⟩

/-- C9 counterexample: the distinct-types parser does not trim the
transport-type column before interpreting it — the value ` bus ` is stored
with its surrounding whitespace, which survives trimming only by being a
different string. -/
theorem trimming_counterexample :
    (runChunks typeLineStep [] [("hdr\n0;1;2; bus \n").toList]).acc = [(" bus ")]
    ∧ trim ((" bus ").toList) ≠ (" bus ").toList := by
  decide

/-! Lemmas about the delimiter splitter. -/

theorem splitOnChar_ne_nil (c : Char) (l : List Char) : splitOnChar c l ≠ [] := by
  cases l with
  | nil => simp [splitOnChar]
  | cons x t =>
    simp only [splitOnChar]
    rcases h : splitOnChar c t with - | ⟨h', r⟩
    · simp
    · by_cases hx : x = c <;> simp [hx]

theorem splitOnChar_not_mem (c : Char) (l : List Char) (h : c ∉ l) :
    splitOnChar c l = [l] := by
  induction l with
  | nil => rfl
  | cons x t ih =>
    have hx : ¬ x = c := fun he => h (he ▸ List.mem_cons_self x t)
    have ht : c ∉ t := fun hm => h (List.mem_cons_of_mem x hm)
    simp only [splitOnChar, ih ht, if_neg hx]

theorem splitOnChar_cons_self (c : Char) (r : List Char) :
    splitOnChar c (c :: r) = [] :: splitOnChar c r := by
  simp only [splitOnChar]
  rcases h : splitOnChar c r with - | ⟨h', t⟩
  · exact absurd h (splitOnChar_ne_nil c r)
  · simp

theorem splitOnChar_append_cons (c : Char) (f r : List Char) (h : c ∉ f) :
    splitOnChar c (f ++ c :: r) = f :: splitOnChar c r := by
  induction f with
  | nil => simpa using splitOnChar_cons_self c r
  | cons x t ih =>
    have hx : ¬ x = c := fun he => h (he ▸ List.mem_cons_self x t)
    have ht : c ∉ t := fun hm => h (List.mem_cons_of_mem x hm)
    rw [List.cons_append]
    simp only [splitOnChar]
    rw [ih ht]
    simp [hx]

theorem splitOnChar_joinChar (c : Char) :
    ∀ (fields : List (List Char)), fields ≠ [] → (∀ f ∈ fields, c ∉ f) →
      splitOnChar c (joinChar c fields) = fields := by
  intro fields
  induction fields with
  | nil => intro h _; exact absurd rfl h
  | cons f t ih =>
    intro _ hmem
    cases t with
    | nil =>
      show splitOnChar c f = [f]
      exact splitOnChar_not_mem c f (hmem f (List.mem_cons_self _ _))
    | cons g r =>
      show splitOnChar c (f ++ c :: joinChar c (g :: r)) = f :: g :: r
      rw [splitOnChar_append_cons c f _ (hmem f (List.mem_cons_self _ _)),
        ih (by simp) (fun x hx => hmem x (List.mem_cons_of_mem _ hx))]

theorem nonEmptyTrim_of_trim_eq_nil (l : List Char) (h : trim l = []) :
    nonEmptyTrim l = none := by
  simp [nonEmptyTrim, h]

theorem nonEmptyTrim_of_trim_ne_nil (l : List Char) (h : trim l ≠ []) :
    nonEmptyTrim l = some (strOf (trim l)) := by
  simp [nonEmptyTrim, h]

/-- C9 (amended): for every feed line, the route parser interprets its
number, type and direction columns (0, 3 and 10) through trimming — a
produced record's type and number are the trimmed column when it is non-empty
after trimming and the carried-forward value when it is empty after trimming,
and its direction is the trimmed column 10, which must be non-empty after
trimming or the line yields no record; the stop parser likewise produces the
trimmed id, siriId and name columns (0, 1 and 5), dropping the line when id
or siriId is empty after trimming and falling back to the carried name when
the name column is; the distinct-types parser, by contrast, inserts the raw
untrimmed column 3 whenever it is byte-non-empty; and the stop-list column is
split into its comma segments verbatim, without trimming.  An absent column
is read as the empty substring throughout. -/
theorem trimming_behaviour :
    (∀ (line : List Char) (last : LastRouteData) (rd : RouteData) (last' : LastRouteData),
        extract_route_data_from_line line last = (some rd, last') →
        (rd.route_type = strOf (trim (((splitOnChar (';') line).get? 3).getD []))
          ∨ (trim (((splitOnChar (';') line).get? 3).getD []) = []
              ∧ last.last_type = some rd.route_type))
        ∧ (rd.number = strOf (trim (((splitOnChar (';') line).get? 0).getD []))
          ∨ (trim (((splitOnChar (';') line).get? 0).getD []) = []
              ∧ last.last_number = some rd.number))
        ∧ rd.directions = strOf (trim (((splitOnChar (';') line).get? 10).getD []))
        ∧ trim (((splitOnChar (';') line).get? 10).getD []) ≠ [])
    ∧ (∀ (line : List Char) (last : LastRouteData),
        trim (((splitOnChar (';') line).get? 10).getD []) = [] →
        (extract_route_data_from_line line last).1 = none)
    ∧ (∀ (line : List Char) (last_name : Option String) (d : StopData),
        extract_stop_data_from_line line last_name = some d →
        d.id = strOf (trim (((splitOnChar (';') line).get? 0).getD []))
        ∧ trim (((splitOnChar (';') line).get? 0).getD []) ≠ []
        ∧ d.siri_id = strOf (trim (((splitOnChar (';') line).get? 1).getD []))
        ∧ trim (((splitOnChar (';') line).get? 1).getD []) ≠ []
        ∧ (d.name = strOf (trim (((splitOnChar (';') line).get? 5).getD []))
            ∨ (trim (((splitOnChar (';') line).get? 5).getD []) = []
                ∧ last_name = some d.name)))
    ∧ (∀ (line : List Char) (last_name : Option String),
        (trim (((splitOnChar (';') line).get? 0).getD []) = []
          ∨ trim (((splitOnChar (';') line).get? 1).getD []) = []) →
        extract_stop_data_from_line line last_name = none)
    ∧ (∀ (type_set : List String) (line tb : List Char),
        col_at_memchr_bytes line 3 = some tb → tb ≠ [] →
        typeLineStep type_set line = setInsert type_set (strOf tb))
    ∧ (∀ parts : List (List Char), parts ≠ [] → (∀ p ∈ parts, (',') ∉ p) →
        parts.getLast? ≠ some [] →
        split_stops_field (joinChar (',') parts) = parts.map strOf) := by
  refine ⟨?_, ?_, ?_, ?_, ?_, ?_⟩
  · intro line last rd last' h
    simp only [extract_route_data_from_line] at h
    split at h
    · simp at h
    next raw_type h3 =>
      split at h
      · simp at h
      next ty hty =>
        split at h
        · simp at h
        next num hnum =>
          split at h
          · simp at h
          next dir hdir =>
            rw [Prod.mk.injEq, Option.some.injEq] at h
            obtain ⟨hrd, hlast⟩ := h
            subst hrd
            rw [h3]
            refine ⟨?_, ?_, ?_, ?_⟩
            · by_cases ht : trim raw_type = []
              · rw [nonEmptyTrim_of_trim_eq_nil _ ht] at hty
                exact Or.inr ⟨ht, by simpa [Option.orElse] using hty⟩
              · rw [nonEmptyTrim_of_trim_ne_nil _ ht] at hty
                simp only [Option.orElse, Option.getD] at hty
                exact Or.inl (by simp at hty; simp [hty])
            · rcases h0 : (splitOnChar (';') line).get? 0 with - | c0
              · rw [h0] at hnum
                exact Or.inr ⟨rfl, by simpa [Option.orElse] using hnum⟩
              · by_cases ht0 : trim c0 = []
                · rw [h0, Option.some_bind, nonEmptyTrim_of_trim_eq_nil _ ht0] at hnum
                  exact Or.inr ⟨ht0, by simpa [Option.orElse] using hnum⟩
                · rw [h0, Option.some_bind, nonEmptyTrim_of_trim_ne_nil _ ht0] at hnum
                  simp only [Option.orElse] at hnum
                  exact Or.inl (by simp at hnum; simp [hnum])
            · rcases h10 : (splitOnChar (';') line).get? 10 with - | c10
              · rw [h10] at hdir
                simp at hdir
              · by_cases ht10 : trim c10 = []
                · rw [h10, Option.some_bind, nonEmptyTrim_of_trim_eq_nil _ ht10] at hdir
                  simp at hdir
                · rw [h10, Option.some_bind, nonEmptyTrim_of_trim_ne_nil _ ht10] at hdir
                  simp at hdir
                  simp [hdir]
            · rcases h10 : (splitOnChar (';') line).get? 10 with - | c10
              · rw [h10] at hdir
                simp at hdir
              · by_cases ht10 : trim c10 = []
                · rw [h10, Option.some_bind, nonEmptyTrim_of_trim_eq_nil _ ht10] at hdir
                  simp at hdir
                · simpa using ht10
  · intro line last h10
    simp only [extract_route_data_from_line]
    split
    · rfl
    next raw_type h3 =>
      split
      · rfl
      next ty hty =>
        split
        · rfl
        next num hnum =>
          split
          · rfl
          next dir hdir =>
            exfalso
            rcases hq : (splitOnChar (';') line).get? 10 with - | c10
            · rw [hq] at hdir
              simp at hdir
            · rw [hq] at hdir h10
              simp only [Option.getD_some] at h10
              rw [Option.some_bind, nonEmptyTrim_of_trim_eq_nil _ h10] at hdir
              simp at hdir
  · intro line last_name d h
    simp only [extract_stop_data_from_line] at h
    split at h
    · simp at h
    next name hname =>
      split at h
      · simp at h
      next siri hsiri =>
        split at h
        · simp at h
        next id0 hid =>
          rw [Option.some.injEq] at h
          subst h
          rcases h0 : (splitOnChar (';') line).get? 0 with - | c0
          · rw [h0] at hid
            simp at hid
          · rw [h0, Option.some_bind] at hid
            by_cases ht0 : trim c0 = []
            · rw [nonEmptyTrim_of_trim_eq_nil _ ht0] at hid
              simp at hid
            · rw [nonEmptyTrim_of_trim_ne_nil _ ht0] at hid
              simp only [Option.some.injEq] at hid
              rcases h1 : (splitOnChar (';') line).get? 1 with - | c1
              · rw [h1] at hsiri
                simp at hsiri
              · rw [h1, Option.some_bind] at hsiri
                by_cases ht1 : trim c1 = []
                · rw [nonEmptyTrim_of_trim_eq_nil _ ht1] at hsiri
                  simp at hsiri
                · rw [nonEmptyTrim_of_trim_ne_nil _ ht1] at hsiri
                  simp only [Option.some.injEq] at hsiri
                  refine ⟨hid.symm, by simpa using ht0, hsiri.symm, by simpa using ht1, ?_⟩
                  rcases h5 : (splitOnChar (';') line).get? 5 with - | c5
                  · rw [h5] at hname
                    exact Or.inr ⟨rfl, by simpa [Option.orElse] using hname⟩
                  · rw [h5, Option.some_bind] at hname
                    by_cases ht5 : trim c5 = []
                    · rw [nonEmptyTrim_of_trim_eq_nil _ ht5] at hname
                      exact Or.inr ⟨by simpa using ht5, by simpa [Option.orElse] using hname⟩
                    · rw [nonEmptyTrim_of_trim_ne_nil _ ht5] at hname
                      simp only [Option.orElse] at hname
                      exact Or.inl (by simp at hname; simp [hname])
  · intro line last_name hcase
    simp only [extract_stop_data_from_line]
    split
    · rfl
    next name hname =>
      split
      · rfl
      next siri hsiri =>
        split
        · rfl
        next id0 hid =>
          exfalso
          rcases hcase with h0e | h1e
          · rcases h0 : (splitOnChar (';') line).get? 0 with - | c0
            · rw [h0] at hid
              simp at hid
            · rw [h0] at hid h0e
              simp only [Option.getD_some] at h0e
              rw [Option.some_bind, nonEmptyTrim_of_trim_eq_nil _ h0e] at hid
              simp at hid
          · rcases h1 : (splitOnChar (';') line).get? 1 with - | c1
            · rw [h1] at hsiri
              simp at hsiri
            · rw [h1] at hsiri h1e
              simp only [Option.getD_some] at h1e
              rw [Option.some_bind, nonEmptyTrim_of_trim_eq_nil _ h1e] at hsiri
              simp at hsiri
  · intro type_set line tb hcol htb
    simp [typeLineStep, hcol, htb]
  · intro parts hne hc hlast
    simp only [split_stops_field]
    rw [splitOnChar_joinChar (',') parts hne hc, if_neg hlast]

/-- Witness for the trimming theorem: the padded route line yields the
trimmed direction, a whitespace-only direction drops the line, the padded
stop line yields the trimmed siriId, a whitespace-only siriId drops the line,
the distinct-types parser inserts the raw padded column, and the stop-list
splitter keeps a padded segment verbatim. -/
theorem trimming_behaviour_witness :
    ("Kopli") = strOf (trim (((splitOnChar (';')
        ((" 12 ;;; bus ;;;;;;; Kopli ;;;1001,1002").toList)).get? 10).getD []))
    ∧ (extract_route_data_from_line (("a;;;b;;;;;;;   ;;;x").toList) ⟨none, none⟩).1 = none
    ∧ ("5001") = strOf (trim (((splitOnChar (';')
        ((" 1001 ; 5001 ;;;; Stop Name ").toList)).get? 1).getD []))
    ∧ extract_stop_data_from_line (("1001;   ;;;;Nm").toList) none = none
    ∧ typeLineStep [] (("0;1;2; bus ").toList) = setInsert [] (strOf ((" bus ").toList))
    ∧ split_stops_field (joinChar (',') [("1001").toList, (" 2 ").toList])
        = [("1001"), (" 2 ")] := by
  refine ⟨?_, ?_, ?_, ?_, ?_, ?_⟩
  · exact (trimming_behaviour.1 ((" 12 ;;; bus ;;;;;;; Kopli ;;;1001,1002").toList)
      ⟨none, none⟩ ⟨("12"), ("bus"), ("Kopli"), [("1001"), ("1002")]⟩
      ⟨some ("bus"), some ("12")⟩ (by rfl)).2.2.1
  · exact trimming_behaviour.2.1 (("a;;;b;;;;;;;   ;;;x").toList) ⟨none, none⟩ (by rfl)
  · exact (trimming_behaviour.2.2.1 ((" 1001 ; 5001 ;;;; Stop Name ").toList) none
      ⟨("1001"), ("5001"), ("Stop Name")⟩ (by rfl)).2.2.1
  · exact trimming_behaviour.2.2.2.1 (("1001;   ;;;;Nm").toList) none (Or.inr (by rfl))
  · exact trimming_behaviour.2.2.2.2.1 [] (("0;1;2; bus ").toList) ((" bus ").toList)
      (by rfl) (by decide)
  · exact trimming_behaviour.2.2.2.2.2 [("1001").toList, (" 2 ").toList]
      (by simp) (by decide) (by decide)

/-- C7 counterexample: an arrival line with no column 6 at all — the
entry-code column absent, not merely empty — is rejected with an error
instead of being classified as a regular entry. -/
theorem entry_code_counterexample :
    extract_arrival_data (fun _ => false) 0 (("bus,1,3600").toList)
      = .error (.error ("invalid arrival data3")) := by
  rfl

/-- C7 (amended): when the entry-code column (column 6) is present, the
arrival is classified as a low-entry vehicle exactly when the code equals the
reserved marker `Z` — serializing with an `isLowEntry: true` entry — and as a
regular entry (serializing without that entry) for any other code, including
the empty one; when the column is absent from the line the parser returns an
error rather than a regular entry. -/
theorem entry_code_classification (isDst : Int → Bool) (today : Nat) (t : Int)
    (code : List Char)
    (h2 : seconds_from_midnight_to_utc_iso isDst today 3600 = .ok t)
    (hc : (',') ∉ code) :
    extract_arrival_data isDst today
        (joinChar (',') [("bus").toList, ("1").toList, ("3600").toList, [], [], [], code])
      = .ok ⟨("1"), ("bus"), if code = [('Z')] then .LowEntry t else .RegularEntry t⟩
    ∧ serializeArrival (.LowEntry t) = [(("time"), toString t), (("isLowEntry"), ("true"))]
    ∧ serializeArrival (.RegularEntry t) = [(("time"), toString t)]
    ∧ extract_arrival_data isDst today (("bus,1,3600").toList)
      = .error (.error ("invalid arrival data3")) := by
  have hcols : splitOnChar (',') (joinChar (',')
      [("bus").toList, ("1").toList, ("3600").toList, [], [], [], code])
      = [("bus").toList, ("1").toList, ("3600").toList, [], [], [], code] := by
    show splitOnChar (',') (("bus").toList ++ (',') :: (("1").toList ++ (',') ::
      (("3600").toList ++ (',') :: ((',') :: ((',') :: ((',') :: code)))))) = _
    rw [splitOnChar_append_cons _ _ _ (by decide), splitOnChar_append_cons _ _ _ (by decide),
      splitOnChar_append_cons _ _ _ (by decide), splitOnChar_cons_self,
      splitOnChar_cons_self, splitOnChar_cons_self, splitOnChar_not_mem _ _ hc]
  have hp1 : parseU32 (("3600").toList) = some 3600 := by rfl
  have hp2 : parseU32 [('3'), ('6'), ('0'), ('0')] = some 3600 := by rfl
  refine ⟨?_, rfl, rfl, ?_⟩
  · simp only [extract_arrival_data, hcols, List.get?, hp1, hp2, h2]
    rfl
  · have hc2 : splitOnChar (',') (("bus,1,3600").toList)
        = [("bus").toList, ("1").toList, ("3600").toList] := by rfl
    simp only [extract_arrival_data, hc2, List.get?, hp1, hp2, h2]

/-- Witness for the entry-code classification: in a zone that is never on
summer time, 01:00 local on day 0 resolves to the instant -3600, a `Z` code
gives a low-entry arrival and an empty code a regular one. -/
theorem entry_code_classification_witness :
    extract_arrival_data (fun _ => false) 0
        (joinChar (',') [("bus").toList, ("1").toList, ("3600").toList, [], [], [], [('Z')]])
      = .ok ⟨("1"), ("bus"), .LowEntry (-3600)⟩
    ∧ extract_arrival_data (fun _ => false) 0
        (joinChar (',') [("bus").toList, ("1").toList, ("3600").toList, [], [], [], []])
      = .ok ⟨("1"), ("bus"), .RegularEntry (-3600)⟩ := by
  have hz := entry_code_classification (fun _ => false) 0 (-3600) [('Z')] (by rfl) (by decide)
  have he := entry_code_classification (fun _ => false) 0 (-3600) [] (by rfl) (by decide)
  refine ⟨?_, ?_⟩
  · simpa using hz.1
  · simpa using he.1

theorem get_of_fresh (c : ArrivalsCache) (now : Nat) (k : String)
    (h : cacheFresh c now k) :
    ∃ a, CacheDataWithKeys.get c now k = (some a, c) := by
  obtain ⟨r, hl, he⟩ := h
  refine ⟨r.data, ?_⟩
  simp [CacheDataWithKeys.get, hl, Nat.not_lt.mpr he]

theorem get_of_not_fresh (c : ArrivalsCache) (now : Nat) (k : String)
    (h : ¬ cacheFresh c now k) :
    (CacheDataWithKeys.get c now k).1 = none := by
  rcases hl : alLookup k c.record with - | r
  · simp [CacheDataWithKeys.get, hl]
  · rcases Nat.lt_or_ge r.expires_at now with hlt | hge
    · simp [CacheDataWithKeys.get, hl, hlt]
    · exact absurd ⟨r, hl, hge⟩ h

theorem get_snd_eq (c : ArrivalsCache) (now : Nat) (k : String) :
    (CacheDataWithKeys.get c now k).2 = c := by
  rcases hl : alLookup k c.record with - | r
  · simp [CacheDataWithKeys.get, hl]
  · by_cases hlt : r.expires_at < now <;> simp [CacheDataWithKeys.get, hl, hlt]

theorem get_preserves_not_fresh (c : ArrivalsCache) (now : Nat) (k k' : String)
    (h : ¬ cacheFresh c now k) :
    ¬ cacheFresh (CacheDataWithKeys.get c now k').2 now k := by
  rw [get_snd_eq]
  exact h

theorem fetch_of_fresh (d : StopData) (c : ArrivalsCache) (now : Nat)
    (h : cacheFresh c now d.siri_id) :
    ∃ a, fetch_arrivals_from_cache d c now = (.ready a, c) := by
  obtain ⟨a, hg⟩ := get_of_fresh c now d.siri_id h
  exact ⟨a, by simp [fetch_arrivals_from_cache, hg]⟩

theorem fetch_of_not_fresh (d : StopData) (c : ArrivalsCache) (now : Nat)
    (h : ¬ cacheFresh c now d.siri_id) :
    (fetch_arrivals_from_cache d c now).1 = .valid d := by
  have hg := get_of_not_fresh c now d.siri_id h
  rcases he : CacheDataWithKeys.get c now d.siri_id with ⟨o, c'⟩
  rw [he] at hg
  simp at hg
  simp [fetch_arrivals_from_cache, he, hg]

theorem cachePass_all_fresh (now : Nat) :
    ∀ (states : List StopArrivalState) (c : ArrivalsCache),
      (∀ d, StopArrivalState.valid d ∈ states → cacheFresh c now d.siri_id) →
      (cachePass states c now).2 = c
      ∧ ∀ d, StopArrivalState.valid d ∉ (cachePass states c now).1 := by
  intro states
  induction states with
  | nil => intro c h; exact ⟨rfl, by simp [cachePass]⟩
  | cons s t ih =>
    intro c h
    cases s with
    | valid d =>
      obtain ⟨a, hf⟩ := fetch_of_fresh d c now (h d (List.mem_cons_self _ _))
      have ht := ih c fun d' hd' => h d' (List.mem_cons_of_mem _ hd')
      constructor
      · simp [cachePass, hf, ht.1]
      · intro d'
        simp only [cachePass, hf, ht.1]
        intro hm
        rcases List.mem_cons.mp hm with hh | hh
        · exact StopArrivalState.noConfusion hh
        · exact ht.2 d' hh
    | stopId id =>
      have ht := ih c fun d' hd' => h d' (List.mem_cons_of_mem _ hd')
      refine ⟨by simp [cachePass, ht.1], ?_⟩
      intro d' hm
      exact ht.2 d' (by simpa [cachePass] using hm)
    | invalid =>
      have ht := ih c fun d' hd' => h d' (List.mem_cons_of_mem _ hd')
      refine ⟨by simp [cachePass, ht.1], ?_⟩
      intro d' hm
      exact ht.2 d' (by simpa [cachePass] using hm)
    | ready a =>
      have ht := ih c fun d' hd' => h d' (List.mem_cons_of_mem _ hd')
      refine ⟨by simp [cachePass, ht.1], ?_⟩
      intro d' hm
      exact ht.2 d' (by simpa [cachePass] using hm)

theorem cachePass_cold_mem (now : Nat) (d : StopData) :
    ∀ (states : List StopArrivalState) (c : ArrivalsCache),
      StopArrivalState.valid d ∈ states → ¬ cacheFresh c now d.siri_id →
      StopArrivalState.valid d ∈ (cachePass states c now).1 := by
  intro states
  induction states with
  | nil => intro c hm; exact absurd hm (by simp)
  | cons s t ih =>
    intro c hm hc
    cases s with
    | valid d' =>
      rcases he : fetch_arrivals_from_cache d' c now with ⟨s', c'⟩
      have hc' : ¬ cacheFresh c' now d.siri_id := by
        have := get_preserves_not_fresh c now d.siri_id d'.siri_id hc
        have hc'eq : c' = (CacheDataWithKeys.get c now d'.siri_id).2 := by
          rcases hg : CacheDataWithKeys.get c now d'.siri_id with ⟨o, cg⟩
          cases o <;> simp [fetch_arrivals_from_cache, hg] at he <;> exact he.2.symm
        rw [hc'eq]
        exact this
      rcases List.mem_cons.mp hm with hh | hh
      · have hd : d' = d := by
          cases hh
          rfl
        subst hd
        have hs' : s' = .valid d' := by
          have := fetch_of_not_fresh d' c now hc
          rw [he] at this
          exact this
        subst hs'
        simp [cachePass, he]
      · simp only [cachePass, he]
        exact List.mem_cons_of_mem _ (ih c' hh hc')
    | stopId id =>
      rcases List.mem_cons.mp hm with hh | hh
      · exact StopArrivalState.noConfusion hh
      · simp only [cachePass]
        exact List.mem_cons_of_mem _ (ih c hh hc)
    | invalid =>
      rcases List.mem_cons.mp hm with hh | hh
      · exact StopArrivalState.noConfusion hh
      · simp only [cachePass]
        exact List.mem_cons_of_mem _ (ih c hh hc)
    | ready a =>
      rcases List.mem_cons.mp hm with hh | hh
      · exact StopArrivalState.noConfusion hh
      · simp only [cachePass]
        exact List.mem_cons_of_mem _ (ih c hh hc)

theorem validate_mem (stop_map : StopMap) (req : List String) (id : String) (d : StopData)
    (hid : id ∈ req) (hl : alLookup id stop_map = some d) :
    StopArrivalState.valid d ∈ req.map (validateStop stop_map) := by
  have : validateStop stop_map id = .valid d := by simp [validateStop, hl]
  exact this ▸ List.mem_map_of_mem (validateStop stop_map) hid

theorem validate_mem_inv (stop_map : StopMap) (req : List String) (d : StopData)
    (hm : StopArrivalState.valid d ∈ req.map (validateStop stop_map)) :
    ∃ id, id ∈ req ∧ alLookup id stop_map = some d := by
  obtain ⟨id, hid, hv⟩ := List.mem_map.mp hm
  refine ⟨id, hid, ?_⟩
  unfold validateStop at hv
  rcases hl : alLookup id stop_map with - | d'
  · rw [hl] at hv
    exact StopArrivalState.noConfusion hv
  · rw [hl] at hv
    cases hv
    rfl

theorem mem_dedupSet (x : String) :
    ∀ (l acc : List String), x ∈ acc ∨ x ∈ l → x ∈ l.foldl setInsert acc := by
  intro l
  induction l with
  | nil => intro acc h; exact h.resolve_right (by simp)
  | cons y t ih =>
    intro acc h
    have hstep : x ∈ acc ∨ x = y → x ∈ setInsert acc y := by
      rintro (ha | he)
      · by_cases hy : y ∈ acc <;> simp [setInsert, hy, ha]
      · by_cases hy : y ∈ acc <;> simp [setInsert, hy, he]
    rcases h with ha | hm
    · exact ih _ (Or.inl (hstep (Or.inl ha)))
    · rcases List.mem_cons.mp hm with he | ht
      · exact ih _ (Or.inl (hstep (Or.inr he)))
      · exact ih _ (Or.inr ht)

theorem commaJoin_ne_empty (x : String) :
    ∀ (l : List String) (acc : String), (acc ≠ ("") ∨ (x ∈ l ∧ x ≠ (""))) →
      l.foldl (fun acc id => (if acc = ("") then acc else acc ++ (",")) ++ id) acc ≠ ("") := by
  intro l
  induction l with
  | nil =>
    intro acc h
    exact h.resolve_right (by simp)
  | cons y t ih =>
    intro acc h
    simp only [List.foldl_cons]
    set acc' := (if acc = ("") then acc else acc ++ (",")) ++ y with hacc'
    have hne : acc ≠ ("") → acc' ≠ ("") := by
      intro ha he
      rw [hacc'] at he
      rw [if_neg ha] at he
      have : (acc ++ (",") ++ y).length = 0 := by rw [he]; rfl
      simp [String.length_append] at this
      exact ha (by
        have : acc.length = 0 := by omega
        cases acc with
        | mk data =>
          cases data with
          | nil => rfl
          | cons a b => simp [String.length] at this)
    rcases h with ha | ⟨hm, hx⟩
    · exact ih _ (Or.inl (hne ha))
    · rcases List.mem_cons.mp hm with he | ht
      · subst he
        refine ih _ (Or.inl ?_)
        intro habs
        rw [hacc'] at habs
        have : ((if acc = ("") then acc else acc ++ (",")) ++ x).length = 0 := by rw [habs]; rfl
        rw [String.length_append] at this
        have hx0 : x.length = 0 := by omega
        exact hx (by
          cases x with
          | mk data =>
            cases data with
            | nil => rfl
            | cons a b => simp [String.length] at hx0)
      · exact ih _ (Or.inr ⟨ht, hx⟩)

theorem arrivals_fetch_le (sp : String) (sm : StopMap) (c : ArrivalsCache) (now : Nat)
    (ab : ArrivalsCache → String → Except ParsingUpstreamError ArrivalsCache) :
    (get_stop_arrivals sp sm c now ab).fetchCount ≤ 1 := by
  simp only [get_stop_arrivals]
  split
  · simp
  split
  · simp
  split
  · simp
  next hkey =>
    rw [update_stops_arrival_cache, if_neg hkey]
    rcases ab _ _ with e | c2 <;> simp

theorem arrivals_warm_no_fetch (sp : String) (sm : StopMap) (c : ArrivalsCache) (now : Nat)
    (ab : ArrivalsCache → String → Except ParsingUpstreamError ArrivalsCache)
    (h : ∀ id d, id ∈ splits_commas sp → alLookup id sm = some d →
      cacheFresh c now d.siri_id) :
    (get_stop_arrivals sp sm c now ab).fetchCount = 0 := by
  have hall : ∀ d, StopArrivalState.valid d ∈ (splits_commas sp).map (validateStop sm) →
      cacheFresh c now d.siri_id := by
    intro d hm
    obtain ⟨id, hid, hl⟩ := validate_mem_inv sm _ d hm
    exact h id d hid hl
  have hpass := cachePass_all_fresh now ((splits_commas sp).map (validateStop sm)) c hall
  have hfm : (cachePass ((splits_commas sp).map (validateStop sm)) c now).1.filterMap
      validSiriId = [] := by
    rw [List.filterMap_eq_nil_iff]
    intro s hs
    cases s with
    | valid d => exact absurd hs (hpass.2 d)
    | stopId id => rfl
    | invalid => rfl
    | ready a => rfl
  simp only [get_stop_arrivals]
  split
  · simp
  split
  · simp
  rw [hfm]
  simp [dedupSet, commaJoin]

theorem arrivals_cold_single_fetch (sp : String) (sm : StopMap) (c : ArrivalsCache)
    (now : Nat) (ab : ArrivalsCache → String → Except ParsingUpstreamError ArrivalsCache)
    (id : String) (d : StopData)
    (hid : id ∈ splits_commas sp) (hl : alLookup id sm = some d)
    (hc : ¬ cacheFresh c now d.siri_id) (hs : d.siri_id ≠ (""))
    (hp : sp ≠ ("")) (h5 : (splits_commas sp).length ≤ 5) :
    (get_stop_arrivals sp sm c now ab).fetchCount = 1
    ∧ d.siri_id ∈ (get_stop_arrivals sp sm c now ab).batched := by
  have h1 : 1 ≤ (splits_commas sp).length := by
    have := splitOnChar_ne_nil (',') sp.toList
    simp only [splits_commas, List.length_map]
    exact List.length_pos.mpr this
  have hmem0 := validate_mem sm _ id d hid hl
  have hmem1 := cachePass_cold_mem now d _ c hmem0 hc
  have hfm : d.siri_id ∈ (cachePass ((splits_commas sp).map (validateStop sm)) c now).1.filterMap
      validSiriId := List.mem_filterMap.mpr ⟨_, hmem1, rfl⟩
  have hdedup : d.siri_id ∈ dedupSet
      ((cachePass ((splits_commas sp).map (validateStop sm)) c now).1.filterMap validSiriId) :=
    mem_dedupSet _ _ [] (Or.inr hfm)
  have hkey : commaJoin (dedupSet
      ((cachePass ((splits_commas sp).map (validateStop sm)) c now).1.filterMap validSiriId))
      ≠ ("") := by
    simp only [commaJoin]
    exact commaJoin_ne_empty d.siri_id _ ("") (Or.inr ⟨hdedup, hs⟩)
  simp only [get_stop_arrivals]
  rw [if_neg hp, if_neg (by push_neg; exact ⟨h1, h5⟩)]
  rw [if_neg hkey, update_stops_arrival_cache, if_neg hkey]
  rcases ab _ _ with e | c2 <;> exact ⟨rfl, hdedup⟩

/-- C3: every arrivals request issues at most one upstream arrival fetch;
when every requested identifier that validates against the stop index has a
fresh cache entry for its siriId, no fetch is issued at all; and when some
validated identifier's siriId is not fresh in the cache (and the request
passes the 1-to-5 guard), exactly one fetch is issued and that siriId is part
of the deduplicated batch set the fetch covers. -/
theorem arrivals_single_upstream_batch (sp : String) (sm : StopMap) (c : ArrivalsCache)
    (now : Nat) (ab : ArrivalsCache → String → Except ParsingUpstreamError ArrivalsCache) :
    (get_stop_arrivals sp sm c now ab).fetchCount ≤ 1
    ∧ ((∀ id d, id ∈ splits_commas sp → alLookup id sm = some d →
          cacheFresh c now d.siri_id) →
        (get_stop_arrivals sp sm c now ab).fetchCount = 0)
    ∧ (∀ id d, id ∈ splits_commas sp → alLookup id sm = some d →
        ¬ cacheFresh c now d.siri_id → d.siri_id ≠ ("") → sp ≠ ("") →
        (splits_commas sp).length ≤ 5 →
        (get_stop_arrivals sp sm c now ab).fetchCount = 1
        ∧ d.siri_id ∈ (get_stop_arrivals sp sm c now ab).batched) :=
  ⟨arrivals_fetch_le sp sm c now ab,
   fun h => arrivals_warm_no_fetch sp sm c now ab h,
   fun id d hid hl hc hs hp h5 =>
     arrivals_cold_single_fetch sp sm c now ab id d hid hl hc hs hp h5⟩

/-- Witness for the batching theorem: one known stop, once with a warm cache
(zero fetches) and once with a cold cache (one fetch containing its siriId). -/
theorem arrivals_single_upstream_batch_witness :
    (get_stop_arrivals ("1") [(("1"), (⟨("1"), ("s1"), ("N")⟩ : StopData))]
        (⟨[(("s1"), ⟨⟨("1"), ("N"), []⟩, 100⟩)], 10⟩ : ArrivalsCache) 50
        (fun c _ => .ok c)).fetchCount = 0
    ∧ (get_stop_arrivals ("1") [(("1"), (⟨("1"), ("s1"), ("N")⟩ : StopData))]
        (⟨[], 10⟩ : ArrivalsCache) 50 (fun c _ => .ok c)).fetchCount = 1
    ∧ ("s1") ∈ (get_stop_arrivals ("1") [(("1"), (⟨("1"), ("s1"), ("N")⟩ : StopData))]
        (⟨[], 10⟩ : ArrivalsCache) 50 (fun c _ => .ok c)).batched := by
  have hfreshAll : ∀ id d, id ∈ splits_commas ("1") →
      alLookup id [(("1"), (⟨("1"), ("s1"), ("N")⟩ : StopData))] = some d →
      cacheFresh (⟨[(("s1"), ⟨⟨("1"), ("N"), []⟩, 100⟩)], 10⟩ : ArrivalsCache) 50 d.siri_id := by
    intro id d hid hl
    rw [show splits_commas ("1") = [("1")] from rfl, List.mem_singleton] at hid
    subst hid
    rw [show alLookup ("1") [(("1"), (⟨("1"), ("s1"), ("N")⟩ : StopData))]
        = some (⟨("1"), ("s1"), ("N")⟩ : StopData) from rfl] at hl
    cases hl
    exact ⟨⟨⟨("1"), ("N"), []⟩, 100⟩, rfl, by decide⟩
  have hwarm := (arrivals_single_upstream_batch ("1")
      [(("1"), (⟨("1"), ("s1"), ("N")⟩ : StopData))]
      (⟨[(("s1"), ⟨⟨("1"), ("N"), []⟩, 100⟩)], 10⟩ : ArrivalsCache) 50
      (fun c _ => .ok c)).2.1 hfreshAll
  have hcold := (arrivals_single_upstream_batch ("1")
      [(("1"), (⟨("1"), ("s1"), ("N")⟩ : StopData))]
      (⟨[], 10⟩ : ArrivalsCache) 50 (fun c _ => .ok c)).2.2 ("1")
      (⟨("1"), ("s1"), ("N")⟩ : StopData) (by decide) rfl
      (by rintro ⟨r, hr, -⟩; simp [alLookup] at hr)
      (by decide) (by decide) (by decide)
  exact ⟨hwarm, hcold.1, hcold.2⟩

/-! Chunk invariance of the buffer parsers. -/

theorem mem_of_getLast?_eq {α : Type} : ∀ (l : List α) (x : α), l.getLast? = some x → x ∈ l := by
  intro l
  induction l with
  | nil => intro x h; exact Option.noConfusion h
  | cons a t ih =>
    intro x h
    cases t with
    | nil =>
      cases h
      exact List.mem_singleton_self a
    | cons b r =>
      rw [List.getLast?_cons_cons] at h
      exact List.mem_cons_of_mem a (ih x h)

theorem nlPositions_mem (buf : List Char) (s p : Nat) (h : p ∈ nlPositions buf s) :
    s ≤ p ∧ p < buf.length ∧ buf.get? p = some ('\n') := by
  have hm := List.mem_filter.mp h
  have hp := List.mem_range.mp hm.1
  have hd := of_decide_eq_true hm.2
  exact ⟨hd.1, hp, hd.2⟩

theorem nlPositions_append (buf ext : List Char) (s : Nat) (h : s ≤ buf.length) :
    nlPositions (buf ++ ext) s
      = nlPositions buf s ++ (nlPositions ext 0).map (buf.length + ·) := by
  simp only [nlPositions, List.length_append]
  rw [List.range_add, List.filter_append]
  congr 1
  · apply List.filter_congr
    intro p hp
    have hlt : p < buf.length := List.mem_range.mp hp
    rw [List.get?_append hlt]
  · rw [List.filter_map (buf.length + ·) (List.range ext.length)]
    congr 1
    apply List.filter_congr
    intro p hp
    have hle : buf.length ≤ buf.length + p := Nat.le_add_right _ _
    have : (buf ++ ext).get? (buf.length + p) = ext.get? p := by
      rw [List.get?_append_right hle]
      congr 1
      omega
    simp only [Function.comp, this]
    have hs : s ≤ buf.length + p := le_trans h hle
    simp [hs]

theorem handleNewline_lp {σ : Type} (f : σ → List Char → σ) (buf : List Char)
    (st : σ × Nat × Bool) (pos : Nat) :
    (handleNewline f buf st pos).2.1 = pos + 1 := by
  rcases st with ⟨acc, lp, fls⟩
  cases fls <;> rfl

theorem handleNewline_agree {σ : Type} (f : σ → List Char → σ) (buf ext : List Char)
    (st : σ × Nat × Bool) (pos : Nat) (h : pos ≤ buf.length) :
    handleNewline f (buf ++ ext) st pos = handleNewline f buf st pos := by
  rcases st with ⟨acc, lp, fls⟩
  cases fls
  · rfl
  · simp only [handleNewline, lineSlice, List.take_append_of_le_length h]

theorem foldl_handleNewline_agree {σ : Type} (f : σ → List Char → σ) (buf ext : List Char) :
    ∀ (P : List Nat) (st : σ × Nat × Bool), (∀ p ∈ P, p ≤ buf.length) →
      P.foldl (handleNewline f (buf ++ ext)) st = P.foldl (handleNewline f buf) st := by
  intro P
  induction P with
  | nil => intro st _; rfl
  | cons p t ih =>
    intro st h
    simp only [List.foldl_cons]
    rw [handleNewline_agree f buf ext st p (h p (List.mem_cons_self _ _))]
    exact ih _ fun q hq => h q (List.mem_cons_of_mem _ hq)

theorem foldl_handleNewline_lp {σ : Type} (f : σ → List Char → σ) (buf : List Char) :
    ∀ (P : List Nat) (st : σ × Nat × Bool),
      (P.foldl (handleNewline f buf) st).2.1
        = (match P.getLast? with
           | none => st.2.1
           | some p => p + 1) := by
  intro P
  induction P with
  | nil => intro st; rfl
  | cons p t ih =>
    intro st
    cases t with
    | nil =>
      simp only [List.foldl_cons, List.foldl_nil, List.getLast?_singleton]
      exact handleNewline_lp f buf st p
    | cons q r =>
      simp only [List.foldl_cons]
      have hstep := ih (handleNewline f buf st p)
      simp only [List.foldl_cons] at hstep
      rw [hstep, List.getLast?_cons_cons]
      rcases hg : (q :: r).getLast? with - | x
      · rw [List.getLast?_eq_none_iff] at hg
        exact absurd hg (by simp)
      · rfl

theorem le_of_pairwise_getLast? :
    ∀ (l : List Nat), l.Pairwise (· < ·) → ∀ p, l.getLast? = some p → ∀ q ∈ l, q ≤ p := by
  intro l
  induction l with
  | nil => intro _ p _ q hq; exact absurd hq (by simp)
  | cons a t ih =>
    intro hp p hL q hq
    cases t with
    | nil =>
      cases hL
      rw [List.mem_singleton] at hq
      exact hq.le
    | cons b r =>
      rw [List.getLast?_cons_cons] at hL
      have hpair := List.pairwise_cons.mp hp
      rcases List.mem_cons.mp hq with he | ht
      · subst he
        exact (hpair.1 p (mem_of_getLast?_eq _ _ hL)).le
      · exact ih hpair.2 p hL q ht

theorem nlPositions_after_last (buf : List Char) (s : Nat) :
    nlPositions buf
      (match (nlPositions buf s).getLast? with
       | none => s
       | some p => p + 1) = [] := by
  rcases hL : (nlPositions buf s).getLast? with - | p
  · rw [List.getLast?_eq_none_iff] at hL
    simpa using hL
  · have hmem := mem_of_getLast?_eq _ _ hL
    have hs := (nlPositions_mem buf s p hmem).1
    have hpar : (nlPositions buf s).Pairwise (· < ·) :=
      (List.pairwise_lt_range buf.length).sublist (List.filter_sublist _)
    have hmax := le_of_pairwise_getLast? _ hpar p hL
    simp only [nlPositions]
    rw [List.filter_eq_nil_iff]
    intro q hq hdec
    have hd := of_decide_eq_true hdec
    have hqmem : q ∈ nlPositions buf s :=
      List.mem_filter.mpr ⟨hq, decide_eq_true ⟨by omega, hd.2⟩⟩
    have := hmax q hqmem
    omega

theorem processBuffer_append {σ : Type} (f : σ → List Char → σ) (buf ext : List Char)
    (st : σ × Nat × Bool) (h : st.2.1 ≤ buf.length) :
    processBuffer f (buf ++ ext) st = processBuffer f (buf ++ ext) (processBuffer f buf st) := by
  obtain ⟨acc, lp, fls⟩ := st
  simp only [processBuffer]
  rw [nlPositions_append buf ext lp h, List.foldl_append,
    foldl_handleNewline_agree f buf ext (nlPositions buf lp) _
      (fun p hp => (nlPositions_mem buf lp p hp).2.1.le)]
  have hlp1 : ((nlPositions buf lp).foldl (handleNewline f buf) (acc, lp, fls)).2.1
      ≤ buf.length := by
    rw [foldl_handleNewline_lp]
    rcases hg : (nlPositions buf lp).getLast? with - | p
    · exact h
    · exact (nlPositions_mem buf lp p (mem_of_getLast?_eq _ _ hg)).2.1
  rw [nlPositions_append buf ext _ hlp1]
  have hafter : nlPositions buf
      ((nlPositions buf lp).foldl (handleNewline f buf) (acc, lp, fls)).2.1 = [] := by
    rw [foldl_handleNewline_lp]
    exact nlPositions_after_last buf lp
  rw [hafter, List.nil_append]

theorem processBuffer_lp_le {σ : Type} (f : σ → List Char → σ) (buf : List Char)
    (st : σ × Nat × Bool) (h : st.2.1 ≤ buf.length) :
    (processBuffer f buf st).2.1 ≤ buf.length := by
  obtain ⟨acc, lp, fls⟩ := st
  simp only [processBuffer]
  rw [foldl_handleNewline_lp]
  rcases hg : (nlPositions buf lp).getLast? with - | p
  · exact h
  · exact (nlPositions_mem buf lp p (mem_of_getLast?_eq _ _ hg)).2.1

theorem foldl_chunkFoldStep {σ : Type} (f : σ → List Char → σ) :
    ∀ (chunks : List (List Char)) (st : ChunkFoldState σ),
      st.last_processed ≤ st.buf.length →
      processBuffer f st.buf (st.acc, st.last_processed, st.first_line_skipped)
        = (st.acc, st.last_processed, st.first_line_skipped) →
      chunks.foldl (chunkFoldStep f) st
        = ⟨st.buf ++ chunks.join,
           (processBuffer f (st.buf ++ chunks.join)
             (st.acc, st.last_processed, st.first_line_skipped)).1,
           (processBuffer f (st.buf ++ chunks.join)
             (st.acc, st.last_processed, st.first_line_skipped)).2.1,
           (processBuffer f (st.buf ++ chunks.join)
             (st.acc, st.last_processed, st.first_line_skipped)).2.2⟩ := by
  intro chunks
  induction chunks with
  | nil =>
    intro st hlp hset
    obtain ⟨buf, acc, lp, fls⟩ := st
    simp only [List.foldl_nil, List.join_nil, List.append_nil]
    rw [hset]
  | cons c cs ih =>
    intro st hlp hset
    obtain ⟨buf, acc, lp, fls⟩ := st
    simp only at hlp hset
    simp only [List.foldl_cons, List.join_cons]
    have hlpc : lp ≤ (buf ++ c).length := le_trans hlp (by simp)
    have hstep : chunkFoldStep f ⟨buf, acc, lp, fls⟩ c
        = ⟨buf ++ c, (processBuffer f (buf ++ c) (acc, lp, fls)).1,
           (processBuffer f (buf ++ c) (acc, lp, fls)).2.1,
           (processBuffer f (buf ++ c) (acc, lp, fls)).2.2⟩ := rfl
    have hpa0 := processBuffer_append f (buf ++ c) [] (acc, lp, fls) hlpc
    rw [List.append_nil] at hpa0
    have hlp' : (processBuffer f (buf ++ c) (acc, lp, fls)).2.1 ≤ (buf ++ c).length :=
      processBuffer_lp_le f (buf ++ c) (acc, lp, fls) hlpc
    have hset' : processBuffer f (buf ++ c)
        ((processBuffer f (buf ++ c) (acc, lp, fls)).1,
         (processBuffer f (buf ++ c) (acc, lp, fls)).2.1,
         (processBuffer f (buf ++ c) (acc, lp, fls)).2.2)
        = ((processBuffer f (buf ++ c) (acc, lp, fls)).1,
           (processBuffer f (buf ++ c) (acc, lp, fls)).2.1,
           (processBuffer f (buf ++ c) (acc, lp, fls)).2.2) := hpa0.symm
    rw [hstep, ih ⟨buf ++ c, (processBuffer f (buf ++ c) (acc, lp, fls)).1,
        (processBuffer f (buf ++ c) (acc, lp, fls)).2.1,
        (processBuffer f (buf ++ c) (acc, lp, fls)).2.2⟩ hlp' hset']
    have hpa2 := processBuffer_append f (buf ++ c) cs.join (acc, lp, fls) hlpc
    simp only
    rw [← List.append_assoc, hpa2]

theorem runChunks_eq_single {σ : Type} (f : σ → List Char → σ) (init : σ)
    (chunks : List (List Char)) :
    runChunks f init chunks = runChunks f init [chunks.join] := by
  have hA := foldl_chunkFoldStep f chunks (⟨[], init, 0, false⟩ : ChunkFoldState σ)
    (Nat.le_refl 0) rfl
  have hB := foldl_chunkFoldStep f [chunks.join] (⟨[], init, 0, false⟩ : ChunkFoldState σ)
    (Nat.le_refl 0) rfl
  simp only [runChunks]
  rw [hA, hB]
  simp

theorem processBuffer_trailing {σ : Type} (f : σ → List Char → σ)
    (content extra : List Char) (st : σ × Nat × Bool)
    (hnl : ('\n') ∉ extra) (h : st.2.1 ≤ content.length) :
    processBuffer f (content ++ extra) st = processBuffer f content st := by
  obtain ⟨acc, lp, fls⟩ := st
  simp only [processBuffer]
  rw [nlPositions_append content extra lp h]
  have hext : nlPositions extra 0 = [] := by
    simp only [nlPositions]
    rw [List.filter_eq_nil_iff]
    intro q hq hdec
    have hd := of_decide_eq_true hdec
    exact hnl (List.get?_mem hd.2)
  rw [hext]
  simp only [List.map_nil, List.append_nil]
  exact foldl_handleNewline_agree f content extra _ _
    (fun p hp => (nlPositions_mem content lp p hp).2.1.le)

/-- C1: folding any of the three static-feed parsers (routes, stops, distinct
types) over any chunking of a byte stream, from the initial fold state used
by the services layer, produces exactly the same fold state — buffer, derived
structure, carry-forward state, consumed offset and header flag — as parsing
the whole content as a single chunk; and bytes after the last line terminator
of a buffer (a trailing newline-free suffix) never affect the result of a
buffer scan, so a partial line is only ever retained, never parsed. -/
theorem chunk_invariance :
    (∀ chunks : List (List Char),
      runChunks routeLineStep ([], ⟨none, none⟩) chunks
          = runChunks routeLineStep ([], ⟨none, none⟩) [chunks.join]
      ∧ runChunks stopLineStep ([], none) chunks
          = runChunks stopLineStep ([], none) [chunks.join]
      ∧ runChunks typeLineStep [] chunks = runChunks typeLineStep [] [chunks.join])
    ∧ ∀ (σ : Type) (f : σ → List Char → σ) (init : σ) (content extra : List Char),
        ('\n') ∉ extra →
        processBuffer f (content ++ extra) (init, 0, false)
          = processBuffer f content (init, 0, false) :=
  ⟨fun chunks =>
    ⟨runChunks_eq_single routeLineStep ([], ⟨none, none⟩) chunks,
     runChunks_eq_single stopLineStep ([], none) chunks,
     runChunks_eq_single typeLineStep [] chunks⟩,
   fun _ f init content extra hnl =>
     processBuffer_trailing f content extra (init, 0, false) hnl (Nat.zero_le _)⟩

/-- Witness for chunk invariance: a types-feed buffer split in the middle of
a line parses as the unsplit buffer, and a trailing newline-free suffix is
not parsed. -/
theorem chunk_invariance_witness :
    runChunks typeLineStep [] [("hdr\n0;1;2;bu").toList, ("s\n").toList]
        = runChunks typeLineStep []
            [[("hdr\n0;1;2;bu").toList, ("s\n").toList].join]
    ∧ processBuffer typeLineStep (("hdr\n").toList ++ ("0;1;2;tail").toList) ([], 0, false)
        = processBuffer typeLineStep (("hdr\n").toList) ([], 0, false) :=
  ⟨(chunk_invariance.1 [("hdr\n0;1;2;bu").toList, ("s\n").toList]).2.2,
   chunk_invariance.2 (List String) typeLineStep [] (("hdr\n").toList)
     (("0;1;2;tail").toList) (by decide)⟩
